import Mathlib

/-!
Verification of the template-literal simplifier rule
(`no-useless-template-literals`) and the return-type enforcer rule
(`explicit-function-return-type`) of the typescript-eslint plugin,
as a shallow embedding of the TypeScript sources.

Source texts are modelled as `List Char`; node ranges are half-open
`[startPos, stopPos)` character offsets.  Template-element ranges include
the surrounding delimiters (backtick / dollar-brace / closing brace), as
in the typescript-estree AST that the rules consume.
-/

namespace TsSpec

/-! ## Type-query adapter (`isUnderlyingTypeString`, rule lines 35-53)

A `ts.Type` is either a union, an intersection, or some other type that
either has or lacks the `StringLike` type flag.  `isUnion`/`isIntersection`
dispatch and flag tests mirror the TypeScript compiler API used by the rule.
-/

/-- Model of `ts.Type`: a union of member types, an intersection of member
types, or any other type, recording whether `ts.TypeFlags.StringLike` is set
on its flags. -/
inductive TsType where
  | other (stringLike : Bool)
  | union (types : List TsType)
  | intersection (types : List TsType)

/-- Model of `isTypeFlagSet(t, ts.TypeFlags.StringLike)`.  A union or
intersection type carries the `Union` / `Intersection` flag, not
`StringLike`, so the flag test is false on those. -/
def isTypeFlagSetStringLike : TsType → Bool
  | .other stringLike => stringLike
  | .union _ => false
  | .intersection _ => false

/-- `isString` from the rule: `isTypeFlagSet(t, ts.TypeFlags.StringLike)`. -/
def isString (t : TsType) : Bool := isTypeFlagSetStringLike t

/-- `isUnderlyingTypeString` (rule source lines 35-53): for a union, every
member must be string-like; for an intersection, some member must be; any
other type is tested directly. -/
def isUnderlyingTypeString (type0 : TsType) : Bool :=
  match type0 with
  | .union types => types.all isString
  | .intersection types => types.any isString
  | .other stringLike => isString (.other stringLike)

/-- `string`'s model: StringLike flag set. -/
def stringType : TsType := .other true

/-- `number`'s model: StringLike flag not set. -/
def numberType : TsType := .other false

/-- A branded-object type's model: StringLike flag not set. -/
def brandedType : TsType := .other false

/-- C1: the simplifier's string-likeness test holds for a union exactly when
every member has the StringLike flag, for an intersection exactly when some
member has it, and otherwise tests the flag on the type itself; in
particular `string | number` is not string-like and `string & Branded` is
string-like. -/
theorem c1_isUnderlyingTypeString_union_all_intersection_some :
    (∀ types : List TsType,
      (isUnderlyingTypeString (.union types) = true ↔
        ∀ t ∈ types, isTypeFlagSetStringLike t = true)) ∧
    (∀ types : List TsType,
      (isUnderlyingTypeString (.intersection types) = true ↔
        ∃ t ∈ types, isTypeFlagSetStringLike t = true)) ∧
    (∀ stringLike : Bool,
      isUnderlyingTypeString (.other stringLike) =
        isTypeFlagSetStringLike (.other stringLike)) ∧
    isUnderlyingTypeString (.union [stringType, numberType]) = false ∧
    isUnderlyingTypeString (.intersection [stringType, brandedType]) = true := by
  refine ⟨?_, ?_, ?_, by decide, by decide⟩
  · intro types
    simp [isUnderlyingTypeString, List.all_eq_true, isString]
  · intro types
    simp [isUnderlyingTypeString, List.any_eq_true, isString]
  · intro stringLike
    rfl

/-! ## Syntax-tree model for the template-literal rule

`Expr` models the expression nodes the rule inspects.  A `Literal` node
carries its computed value and its raw source text (with quotes for string
literals); a `TemplateLiteral` node carries its quasis (static segments,
ranges delimiter-inclusive) and interpolated expressions; `ident` models
`Identifier`; `otherE` stands for every other expression kind. -/

/-- Model of a `Literal` node's `value`. -/
inductive LitValue where
  | str (s : List Char)
  | int (n : Int)
  | boolean (b : Bool)
  | nullV
deriving DecidableEq, Repr

/-- Model of a `TemplateElement` (quasi): its `value.raw` text and its
delimiter-inclusive range. -/
structure TemplateElement where
  raw : List Char
  startPos : Nat
  stopPos : Nat
deriving DecidableEq, Repr

/-- Model of the expression nodes distinguished by the rule. -/
inductive Expr where
  | lit (value : LitValue) (raw : List Char) (startPos stopPos : Nat)
  | tmpl (quasis : List TemplateElement) (exprs : List Expr)
      (startPos stopPos : Nat)
  | ident (name : List Char) (startPos stopPos : Nat)
  | otherE (startPos stopPos : Nat)
deriving Repr

/-- `range[0]` of an expression node. -/
def Expr.startPos : Expr → Nat
  | .lit _ _ s _ => s
  | .tmpl _ _ s _ => s
  | .ident _ s _ => s
  | .otherE s _ => s

/-- `range[1]` of an expression node. -/
def Expr.stopPos : Expr → Nat
  | .lit _ _ _ t => t
  | .tmpl _ _ _ t => t
  | .ident _ _ t => t
  | .otherE _ t => t

/-- Default quasi used for (never-reached in well-formed trees) list access
out of bounds. -/
def dfltQuasi : TemplateElement := ⟨[], 0, 0⟩

/-- Default expression used for out-of-bounds list access. -/
def dfltExpr : Expr := .otherE 0 0

/-! ## Node predicates (rule lines 55-77 and the shared util) -/

/-- `isLiteral` (rule lines 55-59). -/
def isLiteral : Expr → Bool
  | .lit _ _ _ _ => true
  | _ => false

/-- `isTemplateLiteral` (rule lines 61-63). -/
def isTemplateLiteral : Expr → Bool
  | .tmpl _ _ _ _ => true
  | _ => false

/-- Modelled from the spec: `isUndefinedIdentifier` (imported from the
shared util, not under the analysed sources): an `Identifier` node named
`undefined`. -/
def isUndefinedIdentifier : Expr → Bool
  | .ident name _ _ => name == "undefined".data
  | _ => false

/-- `isInfinityIdentifier` (rule lines 65-70). -/
def isInfinityIdentifier : Expr → Bool
  | .ident name _ _ => name == "Infinity".data
  | _ => false

/-- `isNaNIdentifier` (rule lines 72-77). -/
def isNaNIdentifier : Expr → Bool
  | .ident name _ _ => name == "NaN".data
  | _ => false

/-- The filter of the general case (rule lines 117-124): a fixable
interpolated expression. -/
def isFixableExpression (e : Expr) : Bool :=
  isLiteral e || isTemplateLiteral e || isUndefinedIdentifier e ||
    isInfinityIdentifier e || isNaNIdentifier e

/-! ## Fix-edit model (host `fixer` contract, spec section 4.1) -/

/-- A text edit: replace the half-open range `[editStart, editStop)` of the
original source with `newText`. -/
structure TextEdit where
  editStart : Nat
  editStop : Nat
  newText : List Char
deriving DecidableEq, Repr

/-- `fixer.removeRange(range)`. -/
def removeRange (a b : Nat) : TextEdit := ⟨a, b, []⟩

/-- A report produced by `context.report`: the reported node's range, the
message id, and the fix's edits. -/
structure RuleReport where
  reportStart : Nat
  reportStop : Nat
  messageId : String
  fixes : List TextEdit
deriving DecidableEq, Repr

/-- Insert an edit into a list sorted by start offset. -/
def insertEdit (e : TextEdit) : List TextEdit → List TextEdit
  | [] => [e]
  | f :: rest =>
    if e.editStart ≤ f.editStart then e :: f :: rest else f :: insertEdit e rest

/-- Sort edits by start offset (the host merges the edits of one fix in
range order). -/
def sortEdits : List TextEdit → List TextEdit
  | [] => []
  | e :: rest => insertEdit e (sortEdits rest)

/-- Apply (already sorted, disjoint) edits to `text`, starting from offset
`pos`. -/
def applyFrom (text : List Char) : Nat → List TextEdit → List Char
  | pos, [] => text.drop pos
  | pos, e :: rest =>
    (text.drop pos).take (e.editStart - pos) ++ e.newText ++
      applyFrom text e.editStop rest

/-- Apply a fix's edits to the original source text: sort them by range and
splice the replacement texts in (the host's single atomic application). -/
def applyFixes (text : List Char) (edits : List TextEdit) : List Char :=
  applyFrom text 0 (sortEdits edits)

/-- The slice `[a, b)` of a source text. -/
def sliceTxt (text : List Char) (a b : Nat) : List Char :=
  (text.drop a).take (b - a)

/-! ## The `no-useless-template-literals` visitor (rule lines 79-175) -/

/-- The parent-node test of rule lines 81-83: all that matters is whether
the parent is a `TaggedTemplateExpression`. -/
inductive ParentKind where
  | taggedTemplateExpression
  | otherParent
deriving DecidableEq, Repr

/-- `String(value)` for the non-string literal values the rule inlines. -/
def jsStringOfValue : LitValue → List Char
  | .str s => s
  | .int n => (toString n).data
  | .boolean true => "true".data
  | .boolean false => "false".data
  | .nullV => "null".data

/-- The global single-character-class regex replace
`.replace(/([`$])/g, '\\$1')` (and its `[`$\\]` variant): prefix every
occurrence of a character in `specials` with a backslash. -/
def escapeReplace (specials : List Char) : List Char → List Char
  | [] => []
  | c :: rest =>
    if c ∈ specials then '\\' :: c :: escapeReplace specials rest
    else c :: escapeReplace specials rest

/-- `escapedValue` (rule lines 149-152): string literals use their raw text
minus the surrounding quotes, escaping backtick and dollar; other literals
use `String(value)`, escaping backtick, dollar and backslash. -/
def escapedValue (value : LitValue) (raw : List Char) : List Char :=
  match value with
  | .str _ => escapeReplace ['\x60', '$'] ((raw.drop 1).dropLast)
  | v => escapeReplace ['\x60', '$', '\\'] (jsStringOfValue v)

/-- `hasSingleStringVariable` (rule lines 85-90): exactly two quasis, both
with empty raw text, and exactly one interpolated expression whose
constrained type is string-like.  `typeOf` stands for the external type
service (`getConstrainedTypeAtLocation`). -/
def hasSingleStringVariable (typeOf : Expr → TsType)
    (quasis : List TemplateElement) (exprs : List Expr) : Bool :=
  quasis.length == 2 &&
  (quasis.getD 0 dfltQuasi).raw == [] &&
  (quasis.getD 1 dfltQuasi).raw == [] &&
  exprs.length == 1 &&
  isUnderlyingTypeString (typeOf (exprs.headD dfltExpr))

/-- The fix of the general case for the fixable expression at slot `i`
(rule lines 130-171): remove the dollar-brace ending the preceding quasi
and the brace starting the following quasi; then, for a literal, replace
the expression by its escaped value, and for a nested template literal,
remove its two backticks. -/
def generalFixes (quasis : List TemplateElement) (i : Nat) (e : Expr) :
    List TextEdit :=
  let prevQuasi := quasis.getD i dfltQuasi
  let nextQuasi := quasis.getD (i + 1) dfltQuasi
  let fixes := [removeRange (prevQuasi.stopPos - 2) e.startPos,
                removeRange e.stopPos (nextQuasi.startPos + 1)]
  match e with
  | .lit value raw s t => fixes ++ [⟨s, t, escapedValue value raw⟩]
  | .tmpl _ _ s t => fixes ++ [removeRange s (s + 1), removeRange (t - 1) t]
  | _ => fixes

/-- The `TemplateLiteral` visitor (rule lines 80-174).  Skips templates
whose parent is a tagged template; reports the single-interpolation special
case with a fix removing backticks and delimiters; otherwise reports each
fixable expression slot in the order of `node.expressions` (the source's
`filter` + `forEach`; array iteration uses node identity, which for a
well-formed tree is its slot position). -/
def templateLiteralVisitor (typeOf : Expr → TsType) (parent : ParentKind)
    (quasis : List TemplateElement) (exprs : List Expr) : List RuleReport :=
  match parent with
  | .taggedTemplateExpression => []
  | .otherParent =>
    if hasSingleStringVariable typeOf quasis exprs then
      let e := exprs.headD dfltExpr
      let prevQuasi := quasis.getD 0 dfltQuasi
      let nextQuasi := quasis.getD 1 dfltQuasi
      [⟨e.startPos, e.stopPos, "noUselessTemplateLiteral",
        [removeRange (prevQuasi.stopPos - 3) e.startPos,
         removeRange e.stopPos (nextQuasi.startPos + 2)]⟩]
    else
      (exprs.enum.filter (fun p => isFixableExpression p.2)).map
        (fun p => ⟨p.2.startPos, p.2.stopPos, "noUselessTemplateLiteral",
          generalFixes quasis p.1 p.2⟩)

/-- Run the rule over a whole expression tree: the visitor fires on every
`TemplateLiteral` node; the parent of an expression interpolated in a
template is that template (never a tagged template).  `fuel` bounds the
visited nesting depth (any budget at least the tree's depth collects every
report), keeping the run computable by kernel reduction. -/
def runRule (typeOf : Expr → TsType) (parent : ParentKind) :
    Nat → Expr → List RuleReport
  | 0, _ => []
  | fuel + 1, e =>
    match e with
    | .tmpl quasis exprs _ _ =>
      templateLiteralVisitor typeOf parent quasis exprs ++
        (exprs.map (runRule typeOf .otherParent fuel)).flatten
    | _ => []

/-! ## Well-formedness of template nodes and correspondence with a source
text.

A quasi's delimiter-inclusive range starts at the opening backtick (first
quasi) or at the closing brace of the preceding interpolation, and stops
just after the dollar-brace opening the next interpolation (or after the
closing backtick for the last quasi). -/

/-- Whether an expression node's range is wide enough for its syntax: a
template literal occupies at least its two backticks, any other expression
at least one character. -/
def exprWidthOk : Expr → Bool
  | .tmpl _ _ s t => decide (s + 2 ≤ t)
  | .lit _ _ s t => decide (s + 1 ≤ t)
  | .ident _ s t => decide (s + 1 ≤ t)
  | .otherE s t => decide (s + 1 ≤ t)

/-- Range well-formedness of a template node: one more quasi than
expressions; each quasi's width is its raw text plus its delimiters (one
leading character, and two trailing characters except for the last quasi's
single closing backtick); quasis and expressions alternate contiguously;
expression ranges are wide enough. -/
def rangesWF (quasis : List TemplateElement) (exprs : List Expr) : Bool :=
  quasis.length == exprs.length + 1 &&
  (List.range quasis.length).all (fun i =>
    (quasis.getD i dfltQuasi).stopPos ==
      (quasis.getD i dfltQuasi).startPos + (quasis.getD i dfltQuasi).raw.length
        + 1 + (if i == quasis.length - 1 then 1 else 2)) &&
  (List.range exprs.length).all (fun i =>
    (quasis.getD i dfltQuasi).stopPos == (exprs.getD i dfltExpr).startPos &&
    (exprs.getD i dfltExpr).stopPos == (quasis.getD (i + 1) dfltQuasi).startPos &&
    exprWidthOk (exprs.getD i dfltExpr))

/-- The delimiter text preceding quasi `i`'s raw text. -/
def quasiLeftDelim (i : Nat) : List Char :=
  if i == 0 then ['\x60'] else ['\x7d']

/-- The delimiter text following quasi `i`'s raw text in a template with
`count` quasis. -/
def quasiRightDelim (count i : Nat) : List Char :=
  if i == count - 1 then ['\x60'] else ['$', '\x7b']

/-- Whether an expression node corresponds to the given source text: each
node's range slices out exactly its own text (raw text plus delimiters for
template elements), ranges are consistent, and subexpressions match
recursively.  `fuel` bounds the nesting depth that is checked (any budget
at least the tree's depth certifies the same facts; budget 0 certifies
nothing), keeping the check computable by kernel reduction. -/
def exprMatchesText (text : List Char) : Nat → Expr → Bool
  | 0, _ => false
  | fuel + 1, e =>
    match e with
    | .lit _ raw s t =>
      sliceTxt text s t == raw && s + raw.length == t &&
        decide (t ≤ text.length)
    | .ident n s t =>
      sliceTxt text s t == n && s + n.length == t && decide (t ≤ text.length)
    | .otherE s t => decide (s < t) && decide (t ≤ text.length)
    | .tmpl quasis exprs s t =>
      rangesWF quasis exprs &&
      (quasis.headD dfltQuasi).startPos == s &&
      (quasis.getLastD dfltQuasi).stopPos == t &&
      decide (t ≤ text.length) &&
      (List.range quasis.length).all (fun i =>
        sliceTxt text (quasis.getD i dfltQuasi).startPos
            (quasis.getD i dfltQuasi).stopPos ==
          quasiLeftDelim i ++ (quasis.getD i dfltQuasi).raw ++
            quasiRightDelim quasis.length i) &&
      exprs.all (exprMatchesText text fuel)

/-- A well-formed expression node spans at least one character. -/
theorem exprWidthOk_le {e : Expr} (h : exprWidthOk e = true) :
    e.startPos + 1 ≤ e.stopPos := by
  cases e <;> simp only [exprWidthOk, decide_eq_true_eq, Expr.startPos,
    Expr.stopPos] at h ⊢ <;> omega

/-- C3: a template literal whose parent is a tagged template expression is
never reported, whatever its quasis, expressions, and their types. -/
theorem c3_tagged_template_never_reported :
    ∀ (typeOf : Expr → TsType) (quasis : List TemplateElement)
      (exprs : List Expr),
      templateLiteralVisitor typeOf .taggedTemplateExpression quasis exprs
        = [] := by
  intro typeOf quasis exprs
  rfl

/-- C2: on a non-tagged template with exactly two empty quasis and one
string-like-typed interpolation, the rule emits exactly one report whose
fix is two removal edits, deleting the opening backtick together with the
dollar-brace, and the closing brace together with the closing backtick;
applying them leaves the inner expression text (and the surrounding
source) unchanged. -/
theorem c2_single_interpolation_fix (typeOf : Expr → TsType)
    (text : List Char) (q0 q1 : TemplateElement) (e : Expr) (fuel : Nat)
    (hm : exprMatchesText text (fuel + 1)
            (.tmpl [q0, q1] [e] q0.startPos q1.stopPos) = true)
    (hq0 : q0.raw = []) (hq1 : q1.raw = [])
    (hstr : isUnderlyingTypeString (typeOf e) = true) :
    templateLiteralVisitor typeOf .otherParent [q0, q1] [e] =
      [⟨e.startPos, e.stopPos, "noUselessTemplateLiteral",
        [removeRange q0.startPos e.startPos,
         removeRange e.stopPos q1.stopPos]⟩] ∧
    sliceTxt text q0.startPos e.startPos = ['\x60', '$', '\x7b'] ∧
    sliceTxt text e.stopPos q1.stopPos = ['\x7d', '\x60'] ∧
    applyFixes text [removeRange q0.startPos e.startPos,
                     removeRange e.stopPos q1.stopPos] =
      text.take q0.startPos ++ sliceTxt text e.startPos e.stopPos ++
        text.drop q1.stopPos := by
  simp only [exprMatchesText, rangesWF, Bool.and_eq_true, List.all_eq_true,
    beq_iff_eq, decide_eq_true_eq] at hm
  obtain ⟨⟨⟨⟨⟨⟨⟨_, hqw⟩, hchain⟩, _⟩, _⟩, _⟩, hslices⟩, _⟩ := hm
  have h0 : (0 : Nat) ∈ List.range 2 := by decide
  have h1 : (1 : Nat) ∈ List.range 2 := by decide
  have h0e : (0 : Nat) ∈ List.range 1 := by decide
  have hq0w := hqw 0 h0
  have hq1w := hqw 1 h1
  have hch := hchain 0 h0e
  have hs0 := hslices 0 h0
  have hs1 := hslices 1 h1
  simp only [List.getD, List.get?, Option.getD, hq0, hq1, List.length_cons,
    List.length_nil, List.length_singleton, Bool.and_eq_true, beq_iff_eq,
    decide_eq_true_eq] at hq0w hq1w hch hs0 hs1
  norm_num at hq0w hq1w
  obtain ⟨⟨hch1, hch2⟩, hwid⟩ := hch
  have hwid1 : e.startPos + 1 ≤ e.stopPos := exprWidthOk_le hwid
  simp only [quasiLeftDelim, quasiRightDelim] at hs0 hs1
  norm_num at hs0 hs1
  constructor
  · have hssv : hasSingleStringVariable typeOf [q0, q1] [e] = true := by
      simp [hasSingleStringVariable, List.getD, hq0, hq1, hstr]
    simp only [templateLiteralVisitor, hssv, if_true, List.headD, List.getD,
      List.get?, Option.getD]
    have : q0.stopPos - 3 = q0.startPos := by omega
    rw [this]
    have : q1.startPos + 2 = q1.stopPos := by omega
    rw [this]
  refine ⟨?_, ?_, ?_⟩
  · rw [← hch1]
    exact hq0w ▸ hs0
  · rw [hch2]
    exact hs1
  · have hle : q0.startPos ≤ e.stopPos := by omega
    simp only [applyFixes, sortEdits, insertEdit, removeRange, hle, if_pos hle]
    simp only [applyFrom, List.drop_zero, Nat.sub_zero, List.nil_append,
      List.append_nil, sliceTxt, List.take_drop, List.append_assoc]

/-- The source text of the template literal backtick-dollar-brace `name`
brace-backtick, whose single interpolation has type `string`. -/
def c2Text : List Char :=
  ['\x60', '$', '\x7b', 'n', 'a', 'm', 'e', '\x7d', '\x60']

/-- Witness for C2 at the template literal over `c2Text`: the fix deletes
the delimiters and keeps exactly the inner text `name`. -/
theorem c2_single_interpolation_fix_witness :
    templateLiteralVisitor (fun _ => TsType.other true)
        ParentKind.otherParent [⟨[], 0, 3⟩, ⟨[], 7, 9⟩]
        [Expr.ident "name".data 3 7] =
      [⟨3, 7, "noUselessTemplateLiteral",
        [removeRange 0 3, removeRange 7 9]⟩] ∧
    sliceTxt c2Text 0 3 = ['\x60', '$', '\x7b'] ∧
    sliceTxt c2Text 7 9 = ['\x7d', '\x60'] ∧
    applyFixes c2Text [removeRange 0 3, removeRange 7 9] =
      c2Text.take 0 ++ sliceTxt c2Text 3 7 ++ c2Text.drop 9 :=
  c2_single_interpolation_fix (fun _ => TsType.other true) c2Text
    ⟨[], 0, 3⟩ ⟨[], 7, 9⟩ (Expr.ident "name".data 3 7) 1
    (by decide) rfl rfl (by decide)

/-! ## C4: processing order of the general case, and disjointness of the
edits inside one report -/

/-- Two edits touch disjoint ranges. -/
def editsDisjoint (a b : TextEdit) : Prop :=
  a.editStop ≤ b.editStart ∨ b.editStop ≤ a.editStart

/-- Unpack `rangesWF` into indexed facts. -/
theorem rangesWF_facts {quasis : List TemplateElement} {exprs : List Expr}
    (hwf : rangesWF quasis exprs = true) :
    quasis.length = exprs.length + 1 ∧
    (∀ i, i < quasis.length →
      (quasis.getD i dfltQuasi).stopPos =
        (quasis.getD i dfltQuasi).startPos +
          (quasis.getD i dfltQuasi).raw.length + 1 +
          (if i = quasis.length - 1 then 1 else 2)) ∧
    (∀ i, i < exprs.length →
      (quasis.getD i dfltQuasi).stopPos = (exprs.getD i dfltExpr).startPos ∧
      (exprs.getD i dfltExpr).stopPos =
        (quasis.getD (i + 1) dfltQuasi).startPos ∧
      exprWidthOk (exprs.getD i dfltExpr) = true) := by
  simp only [rangesWF, Bool.and_eq_true, List.all_eq_true, beq_iff_eq,
    List.mem_range] at hwf
  obtain ⟨⟨hlen, hq⟩, hch⟩ := hwf
  refine ⟨hlen, fun i hi => hq i hi,
    fun i hi => ⟨(hch i hi).1.1, (hch i hi).1.2, (hch i hi).2⟩⟩

/-- A quasi of a well-formed template spans its delimiters: start before
stop. -/
theorem quasi_start_le_stop {quasis : List TemplateElement}
    {exprs : List Expr} (hwf : rangesWF quasis exprs = true) :
    ∀ i, i < quasis.length →
      (quasis.getD i dfltQuasi).startPos ≤ (quasis.getD i dfltQuasi).stopPos := by
  intro i hi
  have h := (rangesWF_facts hwf).2.1 i hi
  split_ifs at h <;> omega

/-- In a well-formed template, each expression ends no later than any
later expression starts. -/
theorem stop_le_start_of_wf {quasis : List TemplateElement}
    {exprs : List Expr} (hwf : rangesWF quasis exprs = true) :
    ∀ j, j < exprs.length → ∀ i, i < j →
      (exprs.getD i dfltExpr).stopPos ≤ (exprs.getD j dfltExpr).startPos := by
  obtain ⟨hlen, hq, hch⟩ := rangesWF_facts hwf
  intro j
  induction j with
  | zero => omega
  | succ j ih =>
    intro hj i hi
    have hchj : _ := hch j (by omega)
    have hchsj : _ := hch (j + 1) hj
    have hqj : (quasis.getD (j + 1) dfltQuasi).startPos ≤
        (quasis.getD (j + 1) dfltQuasi).stopPos :=
      quasi_start_le_stop hwf (j + 1) (by omega)
    have hwj := exprWidthOk_le hchj.2.2
    rcases Nat.lt_succ_iff_lt_or_eq.mp hi with hij | rfl
    · have hstep := ih (by omega) i hij
      omega
    · omega

/-- In a well-formed template, expression start offsets strictly increase
with the slot index. -/
theorem start_lt_start_of_wf {quasis : List TemplateElement}
    {exprs : List Expr} (hwf : rangesWF quasis exprs = true) :
    ∀ i j, i < j → j < exprs.length →
      (exprs.getD i dfltExpr).startPos < (exprs.getD j dfltExpr).startPos := by
  intro i j hij hj
  have h1 := stop_le_start_of_wf hwf j hj i hij
  have hch := (rangesWF_facts hwf).2.2 i (by omega)
  have := exprWidthOk_le hch.2.2
  omega

/-- Indices in `List.enumFrom k l` are at least `k`, below `k + l.length`,
and pair each index with the list entry at it. -/
theorem mem_enumFrom_facts {α : Type} {l : List α} :
    ∀ {k : Nat} {p : Nat × α}, p ∈ l.enumFrom k →
      k ≤ p.1 ∧ p.1 < k + l.length ∧
        ∀ d : α, l.getD (p.1 - k) d = p.2 := by
  induction l with
  | nil => intro k p h; simp [List.enumFrom] at h
  | cons a l ih =>
    intro k p h
    simp only [List.enumFrom, List.mem_cons] at h
    rcases h with rfl | h
    · simp [List.getD]
    · obtain ⟨h1, h2, h3⟩ := ih h
      refine ⟨by omega, by simp only [List.length_cons]; omega, fun d => ?_⟩
      have hk : p.1 - k = (p.1 - (k + 1)) + 1 := by omega
      rw [hk]
      simpa [List.getD] using h3 d

/-- The slot indices in `List.enum` of a list are strictly increasing. -/
theorem pairwise_fst_lt_enumFrom {α : Type} (l : List α) :
    ∀ k : Nat, (l.enumFrom k).Pairwise (fun p q => p.1 < q.1) := by
  induction l with
  | nil => intro k; simp [List.enumFrom]
  | cons a l ih =>
    intro k
    simp only [List.enumFrom, List.pairwise_cons]
    refine ⟨fun q hq => ?_, ih (k + 1)⟩
    have := (mem_enumFrom_facts hq).1
    omega

/-- The edits inside one general-case report are pairwise disjoint,
provided the reported expression is wide enough for its syntax. -/
theorem generalFixes_disjoint (quasis : List TemplateElement) (i : Nat)
    (e : Expr) (hw : exprWidthOk e = true) :
    List.Pairwise editsDisjoint (generalFixes quasis i e) := by
  cases e with
  | lit value raw s t =>
    have hst : s + 1 ≤ t := by simpa [exprWidthOk] using hw
    dsimp only [generalFixes, removeRange, Expr.startPos, Expr.stopPos]
    simp only [List.cons_append, List.nil_append]
    refine List.Pairwise.cons ?_ (List.Pairwise.cons ?_
      (List.pairwise_singleton _ _))
    · intro b hb
      simp only [List.mem_cons, List.not_mem_nil, or_false] at hb
      rcases hb with rfl | rfl <;> (unfold editsDisjoint; dsimp; omega)
    · intro b hb
      simp only [List.mem_cons, List.not_mem_nil, or_false] at hb
      rcases hb with rfl
      unfold editsDisjoint; dsimp; omega
  | tmpl quasis2 exprs2 s t =>
    have hst : s + 2 ≤ t := by simpa [exprWidthOk] using hw
    dsimp only [generalFixes, removeRange, Expr.startPos, Expr.stopPos]
    simp only [List.cons_append, List.nil_append]
    refine List.Pairwise.cons ?_ (List.Pairwise.cons ?_
      (List.Pairwise.cons ?_ (List.pairwise_singleton _ _)))
    · intro b hb
      simp only [List.mem_cons, List.not_mem_nil, or_false] at hb
      rcases hb with rfl | rfl | rfl <;> (unfold editsDisjoint; dsimp; omega)
    · intro b hb
      simp only [List.mem_cons, List.not_mem_nil, or_false] at hb
      rcases hb with rfl | rfl <;> (unfold editsDisjoint; dsimp; omega)
    · intro b hb
      simp only [List.mem_cons, List.not_mem_nil, or_false] at hb
      rcases hb with rfl
      unfold editsDisjoint; dsimp; omega
  | ident name s t =>
    have hst : s + 1 ≤ t := by simpa [exprWidthOk] using hw
    dsimp only [generalFixes, removeRange, Expr.startPos, Expr.stopPos]
    refine List.Pairwise.cons ?_ (List.pairwise_singleton _ _)
    intro b hb
    simp only [List.mem_cons, List.not_mem_nil, or_false] at hb
    rcases hb with rfl
    unfold editsDisjoint; dsimp; omega
  | otherE s t =>
    have hst : s + 1 ≤ t := by simpa [exprWidthOk] using hw
    dsimp only [generalFixes, removeRange, Expr.startPos, Expr.stopPos]
    refine List.Pairwise.cons ?_ (List.pairwise_singleton _ _)
    intro b hb
    simp only [List.mem_cons, List.not_mem_nil, or_false] at hb
    rcases hb with rfl
    unfold editsDisjoint; dsimp; omega

/-- The quasis of the template with two interpolations of the numeric
literals 1 and 2 and empty static text. -/
def c4Quasis : List TemplateElement := [⟨[], 0, 3⟩, ⟨[], 4, 7⟩, ⟨[], 8, 10⟩]

/-- Its interpolated expressions: the literals `1` and `2`. -/
def c4Exprs : List Expr := [.lit (.int 1) ['1'] 3 4, .lit (.int 2) ['2'] 7 8]

/-- A type assignment for the counterexample (never consulted: the special
case already fails on the quasi count). -/
def c4TypeOf : Expr → TsType := fun _ => .other false

/-- C4 counterexample: on the template with fixable slots at offsets 3 and
7, the rule emits the report for the leftmost slot first — the processing
order is forward source order, not reverse. -/
theorem c4_counterexample_not_reverse_order :
    templateLiteralVisitor c4TypeOf .otherParent c4Quasis c4Exprs =
      [⟨3, 4, "noUselessTemplateLiteral",
        [removeRange 1 3, removeRange 4 5, ⟨3, 4, ['1']⟩]⟩,
       ⟨7, 8, "noUselessTemplateLiteral",
        [removeRange 5 7, removeRange 8 9, ⟨7, 8, ['2']⟩]⟩] ∧
    ¬ List.Pairwise (fun a b : RuleReport => b.reportStart < a.reportStart)
        (templateLiteralVisitor c4TypeOf .otherParent c4Quasis c4Exprs) := by
  have hvis : templateLiteralVisitor c4TypeOf .otherParent c4Quasis c4Exprs =
      [⟨3, 4, "noUselessTemplateLiteral",
        [removeRange 1 3, removeRange 4 5, ⟨3, 4, ['1']⟩]⟩,
       ⟨7, 8, "noUselessTemplateLiteral",
        [removeRange 5 7, removeRange 8 9, ⟨7, 8, ['2']⟩]⟩] := by decide
  refine ⟨hvis, ?_⟩
  rw [hvis]
  intro h
  have := List.rel_of_pairwise_cons h (List.mem_singleton.mpr rfl)
  simp at this

/-- C4 (amended): in the general case the rule processes the fixable slots
in forward source order — the reported nodes' start offsets strictly
increase along the report list — and the edits inside each single report
are pairwise disjoint. -/
theorem c4_forward_order_and_disjoint_edits (typeOf : Expr → TsType)
    (quasis : List TemplateElement) (exprs : List Expr)
    (hwf : rangesWF quasis exprs = true)
    (hns : hasSingleStringVariable typeOf quasis exprs = false) :
    List.Pairwise (fun a b : RuleReport => a.reportStart < b.reportStart)
        (templateLiteralVisitor typeOf .otherParent quasis exprs) ∧
    ∀ r ∈ templateLiteralVisitor typeOf .otherParent quasis exprs,
      List.Pairwise editsDisjoint r.fixes := by
  have hvis : templateLiteralVisitor typeOf .otherParent quasis exprs =
      (exprs.enum.filter (fun p => isFixableExpression p.2)).map
        (fun p => ⟨p.2.startPos, p.2.stopPos, "noUselessTemplateLiteral",
          generalFixes quasis p.1 p.2⟩) := by
    simp only [templateLiteralVisitor, hns, Bool.false_eq_true, if_false]
  constructor
  · rw [hvis]
    have henum : exprs.enum.Pairwise
        (fun p q : Nat × Expr => p.1 < q.1) :=
      pairwise_fst_lt_enumFrom exprs 0
    have hfilt := henum.filter (fun p => isFixableExpression p.2)
    have himp : (exprs.enum.filter
        (fun p => isFixableExpression p.2)).Pairwise
        (fun p q : Nat × Expr => p.2.startPos < q.2.startPos) := by
      refine hfilt.imp_of_mem ?_
      intro a b ha hb hab
      have hae := mem_enumFrom_facts (List.mem_of_mem_filter ha)
      have hbe := mem_enumFrom_facts (List.mem_of_mem_filter hb)
      have hga := hae.2.2 dfltExpr
      have hgb := hbe.2.2 dfltExpr
      simp only [Nat.sub_zero] at hga hgb
      have := start_lt_start_of_wf hwf a.1 b.1 hab (by omega)
      rw [hga, hgb] at this
      exact this
    exact himp.map _ (fun p q h => h)
  · intro r hr
    rw [hvis] at hr
    obtain ⟨p, hp, rfl⟩ := List.mem_map.mp hr
    have hpe := mem_enumFrom_facts (List.mem_of_mem_filter hp)
    have hget := hpe.2.2 dfltExpr
    simp only [Nat.sub_zero] at hget
    have hw := ((rangesWF_facts hwf).2.2 p.1 (by omega)).2.2
    rw [hget] at hw
    exact generalFixes_disjoint quasis p.1 p.2 hw

/-- Witness for the amended C4 at the two-slot template of the
counterexample input. -/
theorem c4_forward_order_and_disjoint_edits_witness :
    List.Pairwise (fun a b : RuleReport => a.reportStart < b.reportStart)
        (templateLiteralVisitor c4TypeOf .otherParent c4Quasis c4Exprs) ∧
    ∀ r ∈ templateLiteralVisitor c4TypeOf .otherParent c4Quasis c4Exprs,
      List.Pairwise editsDisjoint r.fixes :=
  c4_forward_order_and_disjoint_edits c4TypeOf c4Quasis c4Exprs
    (by decide) (by decide)

/-- Filtering an enumerated list on the entries and projecting the entries
forgets the indices. -/
theorem enumFrom_filter_map {α β : Type} (f : α → Bool) (g : α → β) :
    ∀ (l : List α) (k : Nat),
      ((l.enumFrom k).filter (fun p => f p.2)).map (fun p => g p.2) =
        (l.filter f).map g := by
  intro l
  induction l with
  | nil => intro k; rfl
  | cons a l ih =>
    intro k
    simp only [List.enumFrom_cons, List.filter_cons]
    by_cases hf : f a
    · simp only [hf, if_true, List.map_cons, ih]
    · simp only [hf, if_false, Bool.false_eq_true, ih]

/-- C5: in the general case an interpolated expression is fixable exactly
when it is a `Literal`, a `TemplateLiteral`, or an `Identifier` named
`undefined`, `Infinity` or `NaN`; the reported node ranges are exactly the
ranges of the fixable expressions, so no other expression is reported or
rewritten. -/
theorem c5_fixable_classification (typeOf : Expr → TsType)
    (quasis : List TemplateElement) (exprs : List Expr)
    (hns : hasSingleStringVariable typeOf quasis exprs = false) :
    (∀ e : Expr, isFixableExpression e = true ↔
      (isLiteral e = true ∨ isTemplateLiteral e = true ∨
        (∃ nm s t, e = .ident nm s t ∧
          (nm = "undefined".data ∨ nm = "Infinity".data ∨
            nm = "NaN".data)))) ∧
    (templateLiteralVisitor typeOf .otherParent quasis exprs).map
        (fun r => (r.reportStart, r.reportStop)) =
      (exprs.filter isFixableExpression).map
        (fun e => (e.startPos, e.stopPos)) := by
  constructor
  · intro e
    cases e with
    | lit value raw s t =>
      simp [isFixableExpression, isLiteral]
    | tmpl quasis2 exprs2 s t =>
      simp [isFixableExpression, isLiteral, isTemplateLiteral]
    | ident nm s t =>
      simp [isFixableExpression, isLiteral, isTemplateLiteral,
        isUndefinedIdentifier, isInfinityIdentifier, isNaNIdentifier,
        Expr.ident.injEq, or_assoc]
    | otherE s t =>
      simp [isFixableExpression, isLiteral, isTemplateLiteral,
        isUndefinedIdentifier, isInfinityIdentifier, isNaNIdentifier]
  · have hvis : templateLiteralVisitor typeOf .otherParent quasis exprs =
        (exprs.enum.filter (fun p => isFixableExpression p.2)).map
          (fun p => ⟨p.2.startPos, p.2.stopPos, "noUselessTemplateLiteral",
            generalFixes quasis p.1 p.2⟩) := by
      simp only [templateLiteralVisitor, hns, Bool.false_eq_true, if_false]
    rw [hvis, List.map_map]
    exact enumFrom_filter_map isFixableExpression
      (fun e => (e.startPos, e.stopPos)) exprs 0

/-- The quasis of the C5 witness template (static text `a`, `b`, `c`,
`d` around three interpolations). -/
def c5Quasis : List TemplateElement :=
  [⟨['a'], 0, 4⟩, ⟨['b'], 13, 17⟩, ⟨['c'], 18, 22⟩, ⟨['d'], 24, 27⟩]

/-- The interpolations of the C5 witness: the identifier `undefined`
(fixable), an ordinary string-typed variable (not fixable), and a string
literal (fixable). -/
def c5Exprs : List Expr :=
  [.ident "undefined".data 4 13, .otherE 17 18,
   .lit (.str ['h', 'i']) ['\x27', 'h', 'i', '\x27'] 22 24]

/-- Witness for C5: only the `undefined` identifier and the string literal
are reported; the string-typed variable in the middle slot is not. -/
theorem c5_fixable_classification_witness :
    (∀ e : Expr, isFixableExpression e = true ↔
      (isLiteral e = true ∨ isTemplateLiteral e = true ∨
        (∃ nm s t, e = .ident nm s t ∧
          (nm = "undefined".data ∨ nm = "Infinity".data ∨
            nm = "NaN".data)))) ∧
    (templateLiteralVisitor (fun _ => TsType.other true) .otherParent
        c5Quasis c5Exprs).map (fun r => (r.reportStart, r.reportStop)) =
      (c5Exprs.filter isFixableExpression).map
        (fun e => (e.startPos, e.stopPos)) :=
  c5_fixable_classification (fun _ => TsType.other true) c5Quasis c5Exprs
    (by decide)


/-- The entry at a valid index of a list appears, with its index, in the
enumeration of the list. -/
theorem getD_mem_enumFrom {α : Type} (d : α) :
    ∀ (l : List α) (k i : Nat), i < l.length →
      (k + i, l.getD i d) ∈ l.enumFrom k := by
  intro l
  induction l with
  | nil => intro k i h; simp at h
  | cons a l ih =>
    intro k i h
    cases i with
    | zero => simp [List.getD]
    | succ i =>
      have hmem := ih (k + 1) i (by simpa using h)
      have hk : k + (i + 1) = k + 1 + i := by omega
      simp only [List.enumFrom_cons, List.mem_cons, hk]
      right
      simpa [List.getD] using hmem

/-! ## C6: the escaping applied when inlining a literal -/

/-- The escaping step the specification describes (refinement reference,
stated from the spec's words, not from the source): escape a backtick, or
a dollar that opens an interpolation (followed by an opening brace), only
when it is preceded by an even number of backslashes. `bs` counts the
backslashes immediately preceding the current position. -/
def specParityEscapeGo : Nat → List Char → List Char
  | _, [] => []
  | bs, c :: rest =>
    if c == '\\' then c :: specParityEscapeGo (bs + 1) rest
    else if (c == '\x60' || (c == '$' && rest.headD ' ' == '\x7b'))
        && bs % 2 == 0 then
      '\\' :: c :: specParityEscapeGo 0 rest
    else c :: specParityEscapeGo 0 rest

/-- The spec's escaping, starting with no preceding backslashes. -/
def specParityEscape (s : List Char) : List Char := specParityEscapeGo 0 s

/-- The quasis of the C6 template: static text `a` and `b` around one
interpolation. -/
def c6Quasis : List TemplateElement := [⟨['a'], 0, 4⟩, ⟨['b'], 7, 10⟩]

/-- Its single interpolation: the string literal containing just a dollar
character (raw text: quote, dollar, quote). -/
def c6Exprs : List Expr := [.lit (.str ['$']) ['\x27', '$', '\x27'] 4 7]

/-- C6 counterexample: for the string literal `'$'` the rule's replacement
text escapes the lone dollar — which is neither a backtick nor part of a
dollar-brace sequence, so the claimed escaping (backslash-parity, only
backticks and dollar-brace openers) would leave it unchanged. -/
theorem c6_counterexample_escapes_every_dollar :
    templateLiteralVisitor (fun _ => TsType.other false) .otherParent
        c6Quasis c6Exprs =
      [⟨4, 7, "noUselessTemplateLiteral",
        [removeRange 2 4, removeRange 7 8, ⟨4, 7, ['\\', '$']⟩]⟩] ∧
    specParityEscape ['$'] = ['$'] ∧
    ('\\' :: ['$']) ≠ ['$'] := by
  refine ⟨by decide, by decide, by decide⟩

/-- C6 (amended): the replacement text escapes every backtick and every
dollar of the literal's base text, unconditionally — no backslash-parity
test and no look-ahead for a brace; string literals use their raw text
minus the surrounding quotes as base, non-string literals use the
`String(...)` rendering with backslashes escaped as well.  The first
conjunct characterises the escaping; the second ties it to the report the
rule emits for a literal in slot `i` of the general case. -/
theorem c6_escape_unconditional (typeOf : Expr → TsType)
    (quasis : List TemplateElement) (exprs : List Expr)
    (value : LitValue) (raw : List Char) (s t : Nat) (i : Nat)
    (hns : hasSingleStringVariable typeOf quasis exprs = false)
    (hi : i < exprs.length)
    (hget : exprs.getD i dfltExpr = .lit value raw s t) :
    (∀ (sp base : List Char), escapeReplace sp base =
      (base.map (fun c => if c ∈ sp then ['\\', c] else [c])).flatten) ∧
    (⟨s, t, "noUselessTemplateLiteral",
        generalFixes quasis i (.lit value raw s t)⟩ : RuleReport) ∈
      templateLiteralVisitor typeOf .otherParent quasis exprs ∧
    generalFixes quasis i (.lit value raw s t) =
      [removeRange ((quasis.getD i dfltQuasi).stopPos - 2) s,
       removeRange t ((quasis.getD (i + 1) dfltQuasi).startPos + 1),
       ⟨s, t, escapedValue value raw⟩] := by
  refine ⟨?_, ?_, rfl⟩
  · intro sp base
    induction base with
    | nil => rfl
    | cons c rest ih =>
      by_cases hc : c ∈ sp <;>
        simp only [escapeReplace, hc, if_true, if_false, List.map_cons,
          List.flatten_cons, ih, List.cons_append, List.nil_append,
          ite_true, ite_false]
  · have hvis : templateLiteralVisitor typeOf .otherParent quasis exprs =
        (exprs.enum.filter (fun p => isFixableExpression p.2)).map
          (fun p => ⟨p.2.startPos, p.2.stopPos, "noUselessTemplateLiteral",
            generalFixes quasis p.1 p.2⟩) := by
      simp only [templateLiteralVisitor, hns, Bool.false_eq_true, if_false]
    rw [hvis]
    refine List.mem_map.mpr ⟨(i, .lit value raw s t), ?_, rfl⟩
    refine List.mem_filter.mpr ⟨?_, rfl⟩
    have := getD_mem_enumFrom dfltExpr exprs 0 i hi
    rw [Nat.zero_add, hget] at this
    exact this

/-- Witness for the amended C6 at the template around `c6Quasis`: the rule
reports the string literal `'$'` with replacement text backslash-dollar. -/
theorem c6_escape_unconditional_witness :
    (∀ (sp base : List Char), escapeReplace sp base =
      (base.map (fun c => if c ∈ sp then ['\\', c] else [c])).flatten) ∧
    (⟨4, 7, "noUselessTemplateLiteral",
        generalFixes c6Quasis 0 (.lit (.str ['$'])
          ['\x27', '$', '\x27'] 4 7)⟩ : RuleReport) ∈
      templateLiteralVisitor (fun _ => TsType.other false) .otherParent
        c6Quasis c6Exprs ∧
    generalFixes c6Quasis 0 (.lit (.str ['$']) ['\x27', '$', '\x27'] 4 7) =
      [removeRange ((c6Quasis.getD 0 dfltQuasi).stopPos - 2) 4,
       removeRange 7 ((c6Quasis.getD 1 dfltQuasi).startPos + 1),
       ⟨4, 7, escapedValue (.str ['$']) ['\x27', '$', '\x27']⟩] :=
  c6_escape_unconditional (fun _ => TsType.other false) c6Quasis c6Exprs
    (.str ['$']) ['\x27', '$', '\x27'] 4 7 0 (by decide) (by decide) rfl

/-! ## The `explicit-function-return-type` rule

The rule keeps a stack of per-function records (`functionInfoStack`).  The
JavaScript array's end (where `push`, `pop` and `.at(-1)` operate) is
modelled as the head of a Lean list. -/

/-- The function node kinds the rule instruments. -/
inductive FnKind where
  | arrowFunctionExpression
  | functionExpression
  | functionDeclaration
deriving DecidableEq, Repr

/-- The parent-node shapes `isAllowedFunction` and `isIIFE` distinguish.
`variableDeclarator` carries the declarator id's name when that id is an
`Identifier`; the member shapes carry the key name when the key is an
`Identifier`, plus the `computed` flag. -/
inductive FnParent where
  | callExpression
  | variableDeclarator (idName : Option String)
  | methodDefinition (keyName : Option String) (computed : Bool)
  | propertyDefinition (keyName : Option String) (computed : Bool)
  | property (keyName : Option String) (computed : Bool)
  | otherParent
deriving DecidableEq, Repr

/-- Model of a function node as seen by the rule: its kind, parent, and
the node facts the checks read.  `typedContext` and `ancestorTyped` model
the two util queries of rule lines 212-218 (an enclosing typed declarator,
and an ancestor that already establishes a return type). -/
structure FnNode where
  kind : FnKind
  parent : FnParent
  typeParams : Bool
  idName : Option String
  hasReturnType : Bool
  exprBody : Bool
  bodyIsVoidUnary : Bool
  typedContext : Bool
  ancestorTyped : Bool
  startLoc : Nat
deriving DecidableEq, Repr

/-- A `ReturnStatement` node: its location, and whether its argument is an
immediately returned function expression (consumed by the spec-modelled
higher-order exemption). -/
structure ReturnStmtNode where
  startLoc : Nat
  argIsFunction : Bool
deriving DecidableEq, Repr

/-- `FunctionInfo` (rule line 107): the function node and the return
statements collected while inside it. -/
structure FunctionInfo where
  node : FnNode
  returns : List ReturnStmtNode
deriving DecidableEq, Repr

/-- The rule's options object (rule lines 12-23 and 94-105). -/
structure Options where
  allowExpressions : Bool
  allowTypedFunctionExpressions : Bool
  allowHigherOrderFunctions : Bool
  allowDirectConstAssertionInArrowFunctions : Bool
  allowConciseArrowFunctionExpressionsStartingWithVoid : Bool
  allowFunctionsWithoutTypeParameters : Bool
  allowedNames : List String
  allowIIFEs : Bool
deriving DecidableEq, Repr

/-- A finding of the return-type rule. -/
structure FnReport where
  loc : Nat
  messageId : String
deriving DecidableEq, Repr

/-- Modelled from the spec: `nullThrows(value, message)` (imported from
the shared util, not under the analysed sources) throws `message` when the
value is nullish and returns it unchanged otherwise. -/
def nullThrows {α : Type} (value : Option α) (message : String) :
    Except String α :=
  match value with
  | none => .error message
  | some v => .ok v

/-- `enterFunction` (rule lines 109-114): push a fresh record. -/
def enterFunction (node : FnNode) (stack : List FunctionInfo) :
    List FunctionInfo :=
  ⟨node, []⟩ :: stack

/-- `popFunctionInfo` (rule lines 116-121): pop through `nullThrows`, so
an empty stack throws `Stack should exist on <exit> exit`. -/
def popFunctionInfo (exitNodeType : String) (stack : List FunctionInfo) :
    Except String (FunctionInfo × List FunctionInfo) :=
  (nullThrows stack.head?
      ("Stack should exist on " ++ exitNodeType ++ " exit")).map
    (fun info => (info, stack.tail))

/-- `isIIFE` (rule lines 184-191): the function's parent is a call
expression. -/
def isIIFE (node : FnNode) : Bool :=
  match node.parent with
  | .callExpression => true
  | _ => false

/-- The name resolution inside `isAllowedFunction` (rule lines 145-169):
the function's own id, or the enclosing declarator / non-computed member
key. -/
def resolvedFuncName (node : FnNode) : Option String :=
  match node.idName with
  | some n => some n
  | none =>
    match node.parent with
    | .variableDeclarator idN => idN
    | .methodDefinition keyN computed => if computed then none else keyN
    | .propertyDefinition keyN computed => if computed then none else keyN
    | .property keyN computed => if computed then none else keyN
    | _ => none

/-- `isAllowedFunction` (rule lines 123-182). -/
def isAllowedFunction (opts : Options) (node : FnNode) : Bool :=
  if opts.allowFunctionsWithoutTypeParameters && !node.typeParams then true
  else if opts.allowIIFEs && isIIFE node then true
  else if opts.allowedNames.isEmpty then false
  else
    (match node.kind with
     | .arrowFunctionExpression | .functionExpression =>
       match resolvedFuncName node with
       | some n => opts.allowedNames.contains n
       | none => false
     | .functionDeclaration => false) ||
    (match node.kind, node.idName with
     | .functionDeclaration, some n => opts.allowedNames.contains n
     | _, _ => false)

/-- Modelled from the spec: `isValidFunctionExpressionReturnType` (shared
util): the function expression already has a valid contextual return type
— an explicit annotation on the function itself or an enclosing typed
declarator. -/
def isValidFunctionExpressionReturnType (node : FnNode) : Bool :=
  node.hasReturnType || node.typedContext

/-- Modelled from the spec: `ancestorHasReturnType` (shared util): an
ancestor already establishes a return type for this function. -/
def ancestorHasReturnType (node : FnNode) : Bool :=
  node.ancestorTyped

/-- Modelled from the spec: `checkFunctionReturnType` (shared util):
report `missingReturnType` at the function's declared location unless it
has an explicit return type, or the higher-order exemption applies —
every collected return immediately yields a function expression. -/
def checkFunctionReturnType (opts : Options) (info : FunctionInfo) :
    List FnReport :=
  if opts.allowHigherOrderFunctions && !info.returns.isEmpty &&
      info.returns.all (fun r => r.argIsFunction) then []
  else if info.node.hasReturnType then []
  else [⟨info.node.startLoc, "missingReturnType"⟩]

/-- `exitFunctionExpression` (rule lines 193-227), as a transition on the
stack: pops (throwing on underflow), then applies the exemptions in source
order, else checks the return type. -/
def exitFunctionExpression (opts : Options) (node : FnNode)
    (stack : List FunctionInfo) :
    Except String (List FunctionInfo × List FnReport) :=
  match popFunctionInfo "function expression" stack with
  | .error e => .error e
  | .ok (info, rest) =>
    if opts.allowConciseArrowFunctionExpressionsStartingWithVoid &&
        (match node.kind with
         | .arrowFunctionExpression => true
         | _ => false) &&
        node.exprBody && node.bodyIsVoidUnary then
      .ok (rest, [])
    else if isAllowedFunction opts node then
      .ok (rest, [])
    else if opts.allowTypedFunctionExpressions &&
        (isValidFunctionExpressionReturnType node ||
          ancestorHasReturnType node) then
      .ok (rest, [])
    else
      .ok (rest, checkFunctionReturnType opts info)

/-- The `FunctionDeclaration:exit` handler (rule lines 234-250). -/
def exitFunctionDeclaration (opts : Options) (node : FnNode)
    (stack : List FunctionInfo) :
    Except String (List FunctionInfo × List FnReport) :=
  match popFunctionInfo "function declaration" stack with
  | .error e => .error e
  | .ok (info, rest) =>
    if isAllowedFunction opts node then
      .ok (rest, [])
    else if opts.allowTypedFunctionExpressions && node.hasReturnType then
      .ok (rest, [])
    else
      .ok (rest, checkFunctionReturnType opts info)

/-- The `ReturnStatement` handler (rule lines 251-253):
`functionInfoStack.at(-1)?.returns.push(node)` — append to the top
record's returns when the stack is non-empty, do nothing otherwise; it
never throws. -/
def returnStatementVisitor (node : ReturnStmtNode)
    (stack : List FunctionInfo) : Except String (List FunctionInfo) :=
  .ok (match stack with
       | [] => []
       | top :: rest => ⟨top.node, top.returns ++ [node]⟩ :: rest)

/-- C7: every function exit pops through the null-checked pop, which
throws synchronously when the stack is empty — an underflow never lets the
analysis continue — and pops the top record otherwise. -/
theorem c7_exit_underflow_throws :
    (∀ (opts : Options) (node : FnNode),
      exitFunctionExpression opts node [] =
        .error "Stack should exist on function expression exit") ∧
    (∀ (opts : Options) (node : FnNode),
      exitFunctionDeclaration opts node [] =
        .error "Stack should exist on function declaration exit") ∧
    (∀ exitNodeType : String,
      popFunctionInfo exitNodeType [] =
        .error ("Stack should exist on " ++ exitNodeType ++ " exit")) ∧
    (∀ (exitNodeType : String) (top : FunctionInfo)
        (rest : List FunctionInfo),
      popFunctionInfo exitNodeType (top :: rest) = .ok (top, rest)) :=
  ⟨fun _ _ => rfl, fun _ _ => rfl, fun _ => rfl, fun _ _ _ => rfl⟩

/-- C8: for an immediately invoked arrow or function expression (the
code's IIFE test: the parent is a `CallExpression`), enabling `allowIIFEs`
yields zero findings, and disabling it — with no other exemption applying
— yields exactly one finding at the function's location. -/
theorem c8_allowIIFEs_toggles_finding (optsT optsF : Options)
    (node : FnNode) (rets : List ReturnStmtNode)
    (rest : List FunctionInfo)
    (hk : node.kind = FnKind.arrowFunctionExpression ∨
      node.kind = FnKind.functionExpression)
    (hp : node.parent = FnParent.callExpression)
    (ht : optsT.allowIIFEs = true) (hf : optsF.allowIIFEs = false)
    (h1T : optsT.allowFunctionsWithoutTypeParameters = false)
    (h1F : optsF.allowFunctionsWithoutTypeParameters = false)
    (h2T : optsT.allowConciseArrowFunctionExpressionsStartingWithVoid
      = false)
    (h2F : optsF.allowConciseArrowFunctionExpressionsStartingWithVoid
      = false)
    (h3T : optsT.allowedNames = []) (h3F : optsF.allowedNames = [])
    (h4 : node.hasReturnType = false) (h5 : node.typedContext = false)
    (h6 : node.ancestorTyped = false)
    (h7F : optsF.allowHigherOrderFunctions = false) :
    isIIFE node = true ∧
    exitFunctionExpression optsT node (⟨node, rets⟩ :: rest) =
      .ok (rest, []) ∧
    exitFunctionExpression optsF node (⟨node, rets⟩ :: rest) =
      .ok (rest, [⟨node.startLoc, "missingReturnType"⟩]) := by
  have hiife : isIIFE node = true := by
    simp [isIIFE, hp]
  refine ⟨hiife, ?_, ?_⟩
  · simp [exitFunctionExpression, popFunctionInfo, nullThrows, Except.map,
      isAllowedFunction, hiife, ht, h1T, h2T]
  · simp [exitFunctionExpression, popFunctionInfo, nullThrows, Except.map,
      isAllowedFunction, checkFunctionReturnType,
      isValidFunctionExpressionReturnType, ancestorHasReturnType,
      hf, h1F, h2F, h3F, h4, h5, h6, h7F]

/-- The options record for C8's witness with the IIFE exemption enabled
(all other exemptions off or inapplicable). -/
def c8OptsEnabled : Options := ⟨false, true, true, true, false, false, [], true⟩

/-- The options record for C8's witness with the IIFE exemption
disabled. -/
def c8OptsDisabled : Options :=
  ⟨false, true, false, true, false, false, [], false⟩

/-- The immediately invoked arrow function of C8's witness: its parent is
a `CallExpression`, it has no return type annotation, and it starts at
offset 5. -/
def c8Node : FnNode :=
  ⟨.arrowFunctionExpression, .callExpression, false, none, false, true,
    false, false, false, 5⟩

/-- Witness for C8: the IIFE produces zero findings with `allowIIFEs` on
and exactly one finding at its location with `allowIIFEs` off. -/
theorem c8_allowIIFEs_toggles_finding_witness :
    isIIFE c8Node = true ∧
    exitFunctionExpression c8OptsEnabled c8Node [⟨c8Node, []⟩] =
      .ok ([], []) ∧
    exitFunctionExpression c8OptsDisabled c8Node [⟨c8Node, []⟩] =
      .ok ([], [⟨5, "missingReturnType"⟩]) :=
  c8_allowIIFEs_toggles_finding c8OptsEnabled c8OptsDisabled c8Node [] []
    (Or.inl rfl) rfl rfl rfl rfl rfl rfl rfl rfl rfl rfl rfl rfl rfl

/-- C10: a `ReturnStatement` fired on an empty stack is silently ignored —
the handler records nothing, leaves the stack unchanged and never throws —
in contrast to a function-exit underflow, which throws. -/
theorem c10_return_underflow_ignored :
    (∀ node : ReturnStmtNode, returnStatementVisitor node [] = .ok []) ∧
    (∀ (node : ReturnStmtNode) (top : FunctionInfo)
        (rest : List FunctionInfo),
      returnStatementVisitor node (top :: rest) =
        .ok (⟨top.node, top.returns ++ [node]⟩ :: rest)) ∧
    (∀ (opts : Options) (node : FnNode),
      exitFunctionExpression opts node [] =
        Except.error "Stack should exist on function expression exit") :=
  ⟨fun _ => rfl, fun _ _ _ => rfl, fun _ _ => rfl⟩

/-! ## C9: the proposed fix is not idempotent under re-analysis

The template backtick `a` dollar-brace backtick-dollar-backtick brace,
brace `1` brace backtick (source text `c9Text1`) contains one fixable
slot: the nested template holding only a dollar.  The proposed fix inlines
that dollar directly before the literal brace of the following quasi,
which creates a brand-new interpolation in the rewritten source
(`c9Text2`), and re-running the rule on the rewritten template reports
again. -/

/-- The original source text (12 characters). -/
def c9Text1 : List Char :=
  ['\x60', 'a', '$', '\x7b', '\x60', '$', '\x60', '\x7d', '\x7b', '1',
   '\x7d', '\x60']

/-- Its template-literal node: quasis `a` and brace-1-brace around the
nested template holding a single dollar. -/
def c9Outer : Expr :=
  .tmpl [⟨['a'], 0, 4⟩, ⟨['\x7b', '1', '\x7d'], 7, 12⟩]
    [.tmpl [⟨['$'], 4, 7⟩] [] 4 7] 0 12

/-- The edits the rule proposes for the nested-template slot. -/
def c9Fixes : List TextEdit :=
  [removeRange 2 4, removeRange 7 8, removeRange 4 5, removeRange 6 7]

/-- The rewritten source text after applying the fix (7 characters):
backtick `a` dollar-brace `1` brace backtick — the inlined dollar and the
following brace now form an interpolation. -/
def c9Text2 : List Char :=
  ['\x60', 'a', '$', '\x7b', '1', '\x7d', '\x60']

/-- The template-literal node of the rewritten source. -/
def c9Fixed : Expr :=
  .tmpl [⟨['a'], 0, 4⟩, ⟨[], 5, 7⟩] [.lit (.int 1) ['1'] 4 5] 0 7

/-- C9: the rule reports exactly one construct of `c9Text1` and proposes
`c9Fixes`; applying the fix yields `c9Text2`, whose template literal the
same rule reports again — re-running the rule over the fixed result does
not yield zero findings, so the fix is not idempotent (it also changes the
evaluated string, from `a`-dollar-brace-1-brace to `a1`). -/
theorem c9_fix_not_idempotent :
    exprMatchesText c9Text1 2 c9Outer = true ∧
    runRule (fun _ => TsType.other false) .otherParent 2 c9Outer =
      [⟨4, 7, "noUselessTemplateLiteral", c9Fixes⟩] ∧
    applyFixes c9Text1 c9Fixes = c9Text2 ∧
    exprMatchesText c9Text2 2 c9Fixed = true ∧
    runRule (fun _ => TsType.other false) .otherParent 2 c9Fixed =
      [⟨4, 5, "noUselessTemplateLiteral",
        [removeRange 2 4, removeRange 5 6, ⟨4, 5, ['1']⟩]⟩] :=
  ⟨by decide, by decide, by decide, by decide, by decide⟩

end TsSpec
